import Mathlib

/-!
Verification of the screening & scoring engine of the `aristosys-backend`
repository against its natural-language specification.

The Python sources are shallowly embedded:
* floats are modelled as exact rationals (`ℚ`),
* Python's `round` (banker's rounding, ties to even) is `pyRound` /
  `pyRound1` (one decimal place),
* Python dicts that the code iterates or looks up are modelled as
  insertion-ordered association lists,
* the dynamically shaped requirement values ("bare string, dict, or
  anything else") are the inductive `SkillItem`, whose `other`
  constructor stands for any value that is neither a string nor a dict.

Embedded functions keep the names of the Python functions they are
translated from (`score_skills`, `get_best_skill_from_group`,
`calculate_final_score`, `score_candidate`, `normalize_name`, ...).
-/

/-- Python `round(q)`: nearest integer, ties to even (banker's rounding). -/
def pyRound (q : ℚ) : ℤ :=
  if q - ⌊q⌋ < 1/2 then ⌊q⌋
  else if 1/2 < q - ⌊q⌋ then ⌊q⌋ + 1
  else if ⌊q⌋ % 2 = 0 then ⌊q⌋ else ⌊q⌋ + 1

/-- Python `round(q, 1)`: nearest multiple of 1/10, ties to even. -/
def pyRound1 (q : ℚ) : ℚ := (pyRound (q * 10) : ℚ) / 10

/-! ## Embedding of `app/services/scoring_service.py` -/

/-- The module-level `SKILL_STRENGTH_MULTIPLIER` dict, read through
`.get(strength, 0.0)`: unknown strings resolve to `0`. -/
def SKILL_STRENGTH_MULTIPLIER (s : String) : ℚ :=
  if s = "strong" then 1
  else if s = "moderate" then 7/10
  else if s = "weak" then 3/10
  else if s = "missing" then 0
  else 0

/-- A Python dict of strings, as an insertion-ordered association list. -/
abbrev StrengthMap := List (String × String)

/-- Lookup `d.get(k, dflt)` for a string-valued dict. -/
def dictGet (m : StrengthMap) (k dflt : String) : String :=
  match m.find? (fun p => p.1 == k) with
  | some p => p.2
  | none => dflt

/-- Python `str.lower()` (ASCII case folding; all keys in play are ASCII). -/
def strLower (s : String) : String := String.mk (s.data.map Char.toLower)

/-- The per-option lookup inside `get_best_skill_from_group`:
`strength = skill_strength.get(option, "").lower()`, then the
case-insensitive fallback scan over `skill_strength.items()`, then
`"missing"` when still empty. -/
def groupOptionStrength (m : StrengthMap) (option : String) : String :=
  let exact := strLower (dictGet m option "")
  let strength :=
    if exact = "" then
      match m.find? (fun p => strLower p.1 == strLower option) with
      | some p => strLower p.2
      | none => ""
    else exact
  if strength = "" then "missing" else strength

/-- The `for option in options` accumulator loop of
`get_best_skill_from_group`; the accumulator is
`(best_skill, best_strength, best_multiplier)` and is replaced only on a
strictly larger multiplier. -/
def bestGo (m : StrengthMap) :
    List String → Option String × String × ℚ → Option String × String × ℚ
  | [], acc => acc
  | option :: rest, acc =>
      let strength := groupOptionStrength m option
      let multiplier := SKILL_STRENGTH_MULTIPLIER strength
      bestGo m rest (if acc.2.2 < multiplier then (some option, strength, multiplier) else acc)

/-- Function `get_best_skill_from_group(options, skill_strength)`, starting from
`(None, "missing", 0.0)`. -/
def get_best_skill_from_group (options : List String) (m : StrengthMap) :
    Option String × String × ℚ :=
  bestGo m options (none, "missing", 0)

/-- A requirement-list entry: a Python `str`, a Python `dict` (with its
optional `type`, `skill` and `options` keys), or any other value, which
the loops of `score_skills` silently skip. -/
inductive SkillItem where
  | str (s : String)
  | dict (type : Option String) (skill : Option String) (options : Option (List String))
  | other
deriving DecidableEq

/-- One record appended to `must_have_breakdown`. -/
structure MustRecord where
  skill : String
  strength : String
  matched_option : Option String
  points : ℚ
  max_points : ℚ
  is_or_group : Bool
deriving DecidableEq

/-- One record appended to `nice_to_have_breakdown`. -/
structure NiceRecord where
  skill : String
  has_skill : Bool
  matched_option : Option String
  points : ℚ
  max_points : ℚ
  is_or_group : Bool
deriving DecidableEq

/-- An entry of the `breakdown` list returned by `score_skills` (the
category name is fixed by the constructor). -/
inductive Category where
  | mustHave (total_points : ℚ) (max_points : ℚ) (skills : List MustRecord)
  | niceToHave (total_points : ℚ) (max_points : ℚ) (skills : List NiceRecord)
deriving DecidableEq

/-- The body of the must-have `for skill_item in must_have_skills` loop of
`score_skills`, for one item: the accumulated points together with the
appended record; `none` for an item that is neither `str` nor `dict`
(the loop has no branch for it, so it contributes neither). -/
def scoreMustItem (pps : ℚ) (m : StrengthMap) : SkillItem → Option (ℚ × MustRecord)
  | .str skill_item =>
      let strength := strLower (dictGet m skill_item "missing")
      let multiplier := SKILL_STRENGTH_MULTIPLIER strength
      let skill_points := pps * multiplier
      some (skill_points,
        ⟨skill_item, strength, none, pyRound1 skill_points, pyRound1 pps, false⟩)
  | .dict type skill opts =>
      let skill_type := type.getD "single"
      let skill_name := skill.getD "Skill"
      if skill_type = "or_group" then
        let options := opts.getD []
        let best := get_best_skill_from_group options m
        let skill_points := pps * best.2.2
        some (skill_points,
          ⟨skill_name ++ " (" ++ String.intercalate "/" options ++ ")",
           best.2.1, best.1, pyRound1 skill_points, pyRound1 pps, true⟩)
      else
        let strength := strLower (dictGet m skill_name "missing")
        let multiplier := SKILL_STRENGTH_MULTIPLIER strength
        let skill_points := pps * multiplier
        some (skill_points,
          ⟨skill_name, strength, none, pyRound1 skill_points, pyRound1 pps, false⟩)
  | .other => none

/-- The body of the nice-to-have loop of `score_skills` for one item
(binary scoring: the full share when the resolved strength is not
`"missing"`, else `0`). -/
def scoreNiceItem (pps : ℚ) (m : StrengthMap) : SkillItem → Option (ℚ × NiceRecord)
  | .str skill_item =>
      let strength := strLower (dictGet m skill_item "missing")
      let has_skill := strength != "missing"
      let skill_points := if has_skill then pps else 0
      some (skill_points,
        ⟨skill_item, has_skill, none, pyRound1 skill_points, pyRound1 pps, false⟩)
  | .dict type skill opts =>
      let skill_type := type.getD "single"
      let skill_name := skill.getD "Skill"
      if skill_type = "or_group" then
        let options := opts.getD []
        let best := get_best_skill_from_group options m
        let has_skill := best.2.1 != "missing"
        let skill_points := if has_skill then pps else 0
        some (skill_points,
          ⟨skill_name ++ " (" ++ String.intercalate "/" options ++ ")",
           has_skill, best.1, pyRound1 skill_points, pyRound1 pps, true⟩)
      else
        let strength := strLower (dictGet m skill_name "missing")
        let has_skill := strength != "missing"
        let skill_points := if has_skill then pps else 0
        some (skill_points,
          ⟨skill_name, has_skill, none, pyRound1 skill_points, pyRound1 pps, false⟩)
  | .other => none

/-- Points-and-records of the must-have loop; the per-skill share is
`must_have_max / len(must_have_skills)` = `30 / N`. -/
def mustResults (must : List SkillItem) (m : StrengthMap) : List (ℚ × MustRecord) :=
  must.filterMap (scoreMustItem (30 / (must.length : ℚ)) m)

/-- The accumulated float `must_have_score` of `score_skills`. -/
def mustTotalQ (must : List SkillItem) (m : StrengthMap) : ℚ :=
  ((mustResults must m).map Prod.fst).sum

/-- Points-and-records of the nice-to-have loop; share `5 / M`. -/
def niceResults (nice : List SkillItem) (m : StrengthMap) : List (ℚ × NiceRecord) :=
  nice.filterMap (scoreNiceItem (5 / (nice.length : ℚ)) m)

/-- The accumulated float `nice_to_have_bonus` of `score_skills`. -/
def niceTotalQ (nice : List SkillItem) (m : StrengthMap) : ℚ :=
  ((niceResults nice m).map Prod.fst).sum

/-- Function `score_skills(must_have_skills, nice_to_have_skills, skill_strength)`:
`(round(must_have_score), round(nice_to_have_bonus), breakdown)`, the
category breakdown entries being appended only under
`if must_have_skills:` / `if nice_to_have_skills:`. -/
def score_skills (must nice : List SkillItem) (m : StrengthMap) :
    ℤ × ℤ × List Category :=
  (pyRound (mustTotalQ must m), pyRound (niceTotalQ nice m),
    (if must.isEmpty then [] else
      [Category.mustHave (pyRound1 (mustTotalQ must m)) 30 ((mustResults must m).map Prod.snd)]) ++
    (if nice.isEmpty then [] else
      [Category.niceToHave (pyRound1 (niceTotalQ nice m)) 5 ((niceResults nice m).map Prod.snd)]))

/-- Function `calculate_suitability_score(engineering_depth)`:
`max(0, min(25, round(engineering_depth * (25 / 15.0))))`. -/
def calculate_suitability_score (engineering_depth : ℚ) : ℤ :=
  max 0 (min 25 (pyRound (engineering_depth * (25 / 15))))

/-- Function `round_experience(years)`: `math.floor(years + 0.5)`. -/
def round_experience (years : ℚ) : ℤ := ⌊years + 1/2⌋

/-- Function `check_experience`: returns `(explanations, notes)`; the two
relevant-experience dicts are accepted and ignored, as in the source. -/
def check_experience (candidate_total required_total : ℚ)
    (relevant_required relevant_candidate : List (String × ℚ)) :
    List String × List String :=
  let ct := round_experience candidate_total
  let rt := round_experience required_total
  let tolerance : ℤ := 1
  if ct ≥ rt then
    (["✓ Has " ++ toString ct ++ "+ years (required: " ++ toString rt ++ ")"], [])
  else if ct ≥ rt - tolerance then
    (["~ Has " ++ toString ct ++ " years (required: " ++ toString rt ++ ", within tolerance)"], [])
  else
    (["⚠ Has " ++ toString ct ++ " years (required: " ++ toString rt ++ ")"],
     ["Experience gap: " ++ toString (rt - ct) ++ " years below requirement"])

/-- Function `calculate_final_score(must_have_score, nice_to_have_score,
suitability_score, formatting_score)`:
`round(min(100, max(0, 40 + must + nice + suitability)), 1)`;
the `formatting_score` argument is informational only and never summed. -/
def calculate_final_score (must_have_score nice_to_have_score suitability_score : ℚ)
    (formatting_score : ℚ) : ℚ :=
  pyRound1 (min 100 (max 0 (40 + must_have_score + nice_to_have_score + suitability_score)))

/-- The fields of `resume_analysis` read by `score_candidate`; `Option`
fields model possibly absent dict keys, resolved with the `.get`
defaults of the source at the use site. -/
structure ResumeAnalysis where
  skill_strength : StrengthMap
  engineering_depth_score : Option ℚ
  formatting_score : Option ℚ
  estimated_total_experience : Option ℚ
  estimated_relevant_experience : List (String × ℚ)

/-- The fields of `jd_analysis` read by `score_candidate`. -/
structure JDAnalysis where
  must_have_skills : List SkillItem
  nice_to_have_skills : List SkillItem
  total_experience_required : Option ℚ
  relevant_experience_required : List (String × ℚ)

/-- The dict returned by `score_candidate` (breakdown flattened into
one structure). -/
structure ScoreResult where
  final_score : ℚ
  base_score : ℤ
  must_have_score : ℤ
  nice_to_have_score : ℤ
  suitability_score : ℤ
  formatting_score : ℚ
  total : ℚ
  skills_breakdown : List Category
  experience_notes : List String
  notes : List String

/-- Function `score_candidate(resume_analysis, jd_analysis)`. -/
def score_candidate (resume_analysis : ResumeAnalysis) (jd_analysis : JDAnalysis) :
    ScoreResult :=
  let skill_strength := resume_analysis.skill_strength
  let must_have := jd_analysis.must_have_skills
  let nice_to_have := jd_analysis.nice_to_have_skills
  let scores := score_skills must_have nice_to_have skill_strength
  let must_have_score := scores.1
  let nice_to_have_score := scores.2.1
  let skills_breakdown := scores.2.2
  let engineering_depth := resume_analysis.engineering_depth_score.getD 8
  let suitability_score := calculate_suitability_score engineering_depth
  let formatting_score := resume_analysis.formatting_score.getD 2
  let exp := check_experience (resume_analysis.estimated_total_experience.getD 0)
      (jd_analysis.total_experience_required.getD 0)
      jd_analysis.relevant_experience_required
      resume_analysis.estimated_relevant_experience
  let final_score := calculate_final_score (must_have_score : ℚ) (nice_to_have_score : ℚ)
      (suitability_score : ℚ) formatting_score
  ⟨final_score, 40, must_have_score, nice_to_have_score, suitability_score,
    formatting_score, final_score, skills_breakdown, exp.1, exp.2⟩

/-! ## Embedding of `app/routers/screening.py` (filename matching) -/

/-- Python's `\s` / `str.split()` / `str.strip()` whitespace (ASCII range). -/
def isPySpace (c : Char) : Bool :=
  c == ' ' || c == '\t' || c == '\n' || c == '\x0b' || c == '\x0c' || c == '\r'

/-- A character of the regex class `[_\-\s]`. -/
def isSepChar (c : Char) : Bool := c == '_' || c == '-' || isPySpace c

/-- Case-insensitive "starts with" on character lists (`re.IGNORECASE`). -/
def ciStartsWith : List Char → List Char → Bool
  | [], _ => true
  | _ :: _, [] => false
  | t :: ts, c :: cs => (t.toLower == c.toLower) && ciStartsWith ts cs

/-- Matching of `[_\-\s]*token[_\-\s]*` at the head of `cs`, trying the
leading separator run greedily from `s` characters downwards (regex
backtracking); on success returns the remainder after the greedily
consumed trailing separators. -/
def matchFrom (token cs : List Char) : Nat → Option (List Char)
  | 0 =>
      if ciStartsWith token cs then some ((cs.drop token.length).dropWhile isSepChar)
      else none
  | s + 1 =>
      if ciStartsWith token (cs.drop (s + 1)) then
        some (((cs.drop (s + 1)).drop token.length).dropWhile isSepChar)
      else matchFrom token cs s

/-- Does `[_\-\s]*token[_\-\s]*` match at the head of `cs`?  The leading
`[_\-\s]*` can consume at most the maximal separator run. -/
def matchAt (token cs : List Char) : Option (List Char) :=
  matchFrom token cs (cs.takeWhile isSepChar).length

/-- Global substitution `re.sub` of the pattern `[_\-\s]*token[_\-\s]*` by the empty string, case-insensitively:
scan left to right, removing each leftmost match and continuing after
it.  `fuel` bounds the recursion; `cs.length` always suffices since a
match consumes at least the (nonempty) token. -/
def subAllF (token : List Char) : Nat → List Char → List Char
  | 0, cs => cs
  | _ + 1, [] => []
  | fuel + 1, c :: rest =>
      match matchAt token (c :: rest) with
      | some rem => subAllF token fuel rem
      | none => c :: subAllF token fuel rest

/-- One `re.sub` pass of `normalize_name` for one suffix token. -/
def reSubAll (token : String) (cs : List Char) : List Char :=
  subAllF token.data cs.length cs

/-- The `for suffix in [...]` loop of `normalize_name`: the seven
patterns applied in the source's order. -/
def removeSuffixTokens (cs : List Char) : List Char :=
  ["_resume", "_cv", "_interview", "_audio", "_recording", "resume", "cv"].foldl
    (fun acc tok => reSubAll tok acc) cs

/-- The part of `filename` after its last `/` (`Path(filename).name`,
for plain file names). -/
def afterLastSlashGo (cur : List Char) : List Char → List Char
  | [] => cur
  | c :: rest =>
      if c == '/' then afterLastSlashGo [] rest
      else afterLastSlashGo (cur ++ [c]) rest

/-- Index of the last occurrence of `c`, if any. -/
def rfindIdx (c : Char) : List Char → Option Nat
  | [] => none
  | x :: rest =>
      match rfindIdx c rest with
      | some i => some (i + 1)
      | none => if x == c then some 0 else none

/-- Stem of `Path(name)`: the suffix starts at the last `.` only when that
dot is neither the first nor the last character. -/
def stemOf (name : List Char) : List Char :=
  match rfindIdx '.' name with
  | some i => if 0 < i && i < name.length - 1 then name.take i else name
  | none => name

/-- Substitution `re.sub` of the pattern `[_\-]+` by one space: each maximal run of `_`/`-` becomes one
space; `inRun` records whether the previous character was in the class. -/
def collapseSepsGo : Bool → List Char → List Char
  | _, [] => []
  | inRun, c :: rest =>
      if c == '_' || c == '-' then
        if inRun then collapseSepsGo true rest
        else ' ' :: collapseSepsGo true rest
      else c :: collapseSepsGo false rest

/-- Python `str.strip()`. -/
def stripWs (cs : List Char) : List Char :=
  ((cs.dropWhile isPySpace).reverse.dropWhile isPySpace).reverse

/-- Function `normalize_name(filename)` from screening.py. -/
def normalize_name (filename : String) : String :=
  let name := stemOf (afterLastSlashGo [] filename.data)
  let name := removeSuffixTokens name
  String.mk (stripWs ((collapseSepsGo false name).map Char.toLower))

/-- End of a separator-bounded occurrence: end of string or a separator. -/
def endBoundary : List Char → Bool
  | [] => true
  | c :: _ => isSepChar c

/-- Removal of the separator-bounded occurrences of `token`,
case-insensitively, scanning left to right; `atBoundary` records whether
the previous character was a separator (or the start). -/
def subBoundedF (token : List Char) : Nat → Bool → List Char → List Char
  | 0, _, cs => cs
  | _ + 1, _, [] => []
  | fuel + 1, atBoundary, c :: rest =>
      if atBoundary && ciStartsWith token (c :: rest)
          && endBoundary ((c :: rest).drop token.length) then
        subBoundedF token fuel true ((c :: rest).drop token.length)
      else
        c :: subBoundedF token fuel (isSepChar c) rest

/-- Claim C7's normalization rule, formalized from the spec's words:
drop path and extension, remove the five tokens `resume, cv, interview,
audio, recording` exactly where they are separator-bounded
(case-insensitively), collapse `_`/`-` runs to single spaces, lowercase
and trim.  Used only to compare the claim against `normalize_name`. -/
def normalize_name_specRule (filename : String) : String :=
  let name := stemOf (afterLastSlashGo [] filename.data)
  let name := ["resume", "cv", "interview", "audio", "recording"].foldl
      (fun acc tok => subBoundedF tok.data acc.length true acc) name
  String.mk (stripWs ((collapseSepsGo false name).map Char.toLower))

/-- Python `str.split()`: maximal non-whitespace runs. -/
def splitWsGo (acc : List Char) : List Char → List String
  | [] => if acc.isEmpty then [] else [String.mk acc.reverse]
  | c :: rest =>
      if isPySpace c then
        if acc.isEmpty then splitWsGo [] rest
        else String.mk acc.reverse :: splitWsGo [] rest
      else splitWsGo (c :: acc) rest

/-- The whitespace-split word list of a normalized key. -/
def wordsOf (s : String) : List String := splitWsGo [] s.data

/-- Does `needle` start `hay`? -/
def startsWithList : List Char → List Char → Bool
  | [], _ => true
  | _ :: _, [] => false
  | n :: ns, h :: hs => (n == h) && startsWithList ns hs

/-- Python `needle in hay` on strings (contiguous substring). -/
def isSubstrList (needle : List Char) : List Char → Bool
  | [] => needle.isEmpty
  | c :: hs => startsWithList needle (c :: hs) || isSubstrList needle hs

/-- The word-pair substring test of screening.py (there named with a
leading `partial_`): both words of
length ≥ 3 and one a substring of the other. -/
def word_substr_match (word1 word2 : String) : Bool :=
  if word1.length < 3 || word2.length < 3 then false
  else isSubstrList word1.data word2.data || isSubstrList word2.data word1.data

/-- Nonempty intersection `audio_words & cand_words` (set truthiness). -/
def hasWordOverlap (audioWords candWords : List String) : Bool :=
  audioWords.any (fun w => candWords.contains w)

/-- The nested `for aw in audio_words: for cw in cand_words` substring
check. -/
def hasSubstrPair (audioWords candWords : List String) : Bool :=
  audioWords.any (fun aw => candWords.any (fun cw => word_substr_match aw cw))

/-- The `for cand_name in candidates` loop of `screen_candidates` for one
audio item: for each bucket, in insertion order, first the word-overlap
test, then (still for that same bucket) the substring-pair test, taking
the first bucket that passes either. -/
def matchAudioLoop (audioWords : List String) : List String → Option String
  | [] => none
  | cand_name :: rest =>
      let candWords := wordsOf cand_name
      if hasWordOverlap audioWords candWords then some cand_name
      else if hasSubstrPair audioWords candWords then some cand_name
      else matchAudioLoop audioWords rest

/-- Audio-to-bucket matching of `screen_candidates`: exact normalized-key
equality first, then the bucket scan; `none` means the audio becomes a
standalone bucket. -/
def matchAudio (audio_name : String) (buckets : List String) : Option String :=
  if buckets.contains audio_name then some audio_name
  else matchAudioLoop (wordsOf audio_name) buckets

/-- Claim C6's phase-ordered matching, formalized from the spec's words:
scan all buckets for a word overlap, and only when no bucket at all
matched by overlap scan them again for a substring pair.  Used only to
compare the claim against `matchAudio`. -/
def matchAudioSpecPhases (audio_name : String) (buckets : List String) : Option String :=
  if buckets.contains audio_name then some audio_name
  else
    match buckets.find? (fun b => hasWordOverlap (wordsOf audio_name) (wordsOf b)) with
    | some b => some b
    | none => buckets.find? (fun b => hasSubstrPair (wordsOf audio_name) (wordsOf b))

/-- Single-pass, first-match characterization of the bucket scan (the
amended form of claim C6). -/
def matchAudioFirst (audio_name : String) (buckets : List String) : Option String :=
  if buckets.contains audio_name then some audio_name
  else buckets.find? (fun b =>
    hasWordOverlap (wordsOf audio_name) (wordsOf b)
      || hasSubstrPair (wordsOf audio_name) (wordsOf b))

/-! ## Derived notions used to state the claims -/

/-- The strength multiplier an OR-group option resolves to. -/
def optMult (m : StrengthMap) (option : String) : ℚ :=
  SKILL_STRENGTH_MULTIPLIER (groupOptionStrength m option)

/-- The largest multiplier over the options of an OR group (`0` when
there is no option). -/
def maxMult (options : List String) (m : StrengthMap) : ℚ :=
  (options.map (optMult m)).foldr max 0

/-- The first option, in declaration order, achieving `maxMult`. -/
def firstAtMax (options : List String) (m : StrengthMap) : Option String :=
  options.find? (fun o => decide (optMult m o = maxMult options m))

/-- The strength multiplier a requirement resolves to (`none` for a
malformed item, which the loops skip). -/
def itemMult (m : StrengthMap) : SkillItem → Option ℚ
  | .str s => some (SKILL_STRENGTH_MULTIPLIER (strLower (dictGet m s "missing")))
  | .dict type skill opts =>
      if type.getD "single" = "or_group" then
        some (get_best_skill_from_group (opts.getD []) m).2.2
      else
        some (SKILL_STRENGTH_MULTIPLIER (strLower (dictGet m (skill.getD "Skill") "missing")))
  | .other => none

/-- Does a nice-to-have requirement resolve to a non-`missing` strength
(the `has_skill` flag of the source)?  `false` for skipped items. -/
def resolvesNonMissing (m : StrengthMap) : SkillItem → Bool
  | .str s => strLower (dictGet m s "missing") != "missing"
  | .dict type skill opts =>
      if type.getD "single" = "or_group" then
        (get_best_skill_from_group (opts.getD []) m).2.1 != "missing"
      else strLower (dictGet m (skill.getD "Skill") "missing") != "missing"
  | .other => false

/-- Is an entry one of the two shapes (`str` / `dict`) the loops of
`score_skills` handle? -/
def isHandledShape : SkillItem → Bool
  | .other => false
  | _ => true

/-- Is a breakdown entry the must-have category? -/
def Category.isMust : Category → Bool
  | .mustHave .. => true
  | .niceToHave .. => false

/-- Is a breakdown entry the nice-to-have category? -/
def Category.isNice : Category → Bool
  | .mustHave .. => false
  | .niceToHave .. => true

/-- The `resume_analysis` of the spec's end-to-end example:
`skill_strength={"python":"weak"}, engineering_depth=6, formatting=2`. -/
def c1Resume : ResumeAnalysis := ⟨[("python", "weak")], some 6, some 2, some 0, []⟩

/-- The `jd_analysis` of the spec's end-to-end example:
`must_have=[{skill:"Python"}], nice_to_have=[]`. -/
def c1JD : JDAnalysis := ⟨[SkillItem.dict none (some "Python") none], [], some 0, []⟩

/-- 19 must-have requirements: 18 resolving strong, one (`"b"`) moderate. -/
def c4Must : List SkillItem := List.replicate 18 (SkillItem.str "a") ++ [SkillItem.str "b"]

/-- Strength map for `c4Must`. -/
def c4Map : StrengthMap := [("a", "strong"), ("b", "moderate")]

/-! ## Properties of the rounding model -/

theorem pyRound_intCast (n : ℤ) : pyRound (n : ℚ) = n := by
  unfold pyRound
  rw [Int.floor_intCast]
  norm_num

theorem pyRound_le {q : ℚ} {n : ℤ} (h : q ≤ (n : ℚ)) : pyRound q ≤ n := by
  have hf : ⌊q⌋ ≤ n := by
    have := Int.floor_le_floor h
    simpa using this
  unfold pyRound
  split_ifs with h1 h2 h3
  · exact hf
  all_goals {
    have hr : (1:ℚ)/2 ≤ q - ⌊q⌋ := le_of_not_lt h1
    have hq : (⌊q⌋ : ℚ) + 1/2 ≤ (n : ℚ) := by
      have := Int.floor_le q
      linarith
    have : ⌊q⌋ < n := by
      by_contra hc
      push_neg at hc
      have : (n : ℚ) ≤ (⌊q⌋ : ℚ) := by exact_mod_cast hc
      linarith
    omega }

theorem le_pyRound {q : ℚ} {n : ℤ} (h : (n : ℚ) ≤ q) : n ≤ pyRound q := by
  have hf : n ≤ ⌊q⌋ := Int.le_floor.mpr h
  unfold pyRound
  split_ifs <;> omega

theorem pyRound_eq_low {q : ℚ} {n : ℤ} (h1 : (n : ℚ) ≤ q) (h2 : q < (n : ℚ) + 1/2) :
    pyRound q = n := by
  have hf : ⌊q⌋ = n := by
    rw [Int.floor_eq_iff]
    constructor
    · exact h1
    · linarith
  unfold pyRound
  rw [hf]
  rw [if_pos (by linarith)]

theorem pyRound_eq_high {q : ℚ} {n : ℤ} (h1 : (n : ℚ) + 1/2 < q) (h2 : q < (n : ℚ) + 1) :
    pyRound q = n + 1 := by
  have hf : ⌊q⌋ = n := by
    rw [Int.floor_eq_iff]
    constructor
    · linarith
    · linarith
  unfold pyRound
  rw [hf]
  rw [if_neg (by linarith), if_pos (by linarith)]

theorem pyRound_tie {q : ℚ} {n : ℤ} (h : q = (n : ℚ) + 1/2) :
    pyRound q = if n % 2 = 0 then n else n + 1 := by
  have hf : ⌊q⌋ = n := by
    rw [Int.floor_eq_iff]
    constructor
    · rw [h]; linarith
    · rw [h]; linarith
  unfold pyRound
  rw [hf]
  rw [if_neg (by rw [h]; linarith), if_neg (by rw [h]; linarith)]

theorem pyRound1_intCast (n : ℤ) : pyRound1 (n : ℚ) = n := by
  unfold pyRound1
  have h : (n : ℚ) * 10 = ((n * 10 : ℤ) : ℚ) := by push_cast; ring
  rw [h, pyRound_intCast]
  push_cast
  ring

theorem pyRound1_le {q : ℚ} {n : ℤ} (h : q ≤ (n : ℚ)) : pyRound1 q ≤ (n : ℚ) := by
  unfold pyRound1
  have h10 : q * 10 ≤ ((n * 10 : ℤ) : ℚ) := by push_cast; linarith
  have := pyRound_le h10
  have hc : (pyRound (q * 10) : ℚ) ≤ ((n * 10 : ℤ) : ℚ) := by exact_mod_cast this
  push_cast at hc
  linarith

theorem le_pyRound1 {q : ℚ} {n : ℤ} (h : (n : ℚ) ≤ q) : (n : ℚ) ≤ pyRound1 q := by
  unfold pyRound1
  have h10 : ((n * 10 : ℤ) : ℚ) ≤ q * 10 := by push_cast; linarith
  have := le_pyRound h10
  have hc : ((n * 10 : ℤ) : ℚ) ≤ (pyRound (q * 10) : ℚ) := by exact_mod_cast this
  push_cast at hc
  linarith


/-! ## Helper lemmas about the skill evaluator -/

theorem mult_nonneg (s : String) : 0 ≤ SKILL_STRENGTH_MULTIPLIER s := by
  unfold SKILL_STRENGTH_MULTIPLIER
  split_ifs <;> norm_num

theorem mult_le_one (s : String) : SKILL_STRENGTH_MULTIPLIER s ≤ 1 := by
  unfold SKILL_STRENGTH_MULTIPLIER
  split_ifs <;> norm_num

theorem maxMult_nil (m : StrengthMap) : maxMult [] m = 0 := rfl

theorem maxMult_cons (o : String) (rest : List String) (m : StrengthMap) :
    maxMult (o :: rest) m = max (optMult m o) (maxMult rest m) := rfl

theorem maxMult_nonneg (options : List String) (m : StrengthMap) :
    0 ≤ maxMult options m := by
  induction options with
  | nil => simp [maxMult_nil]
  | cons o rest ih => rw [maxMult_cons]; exact le_trans ih (le_max_right _ _)

theorem maxMult_le_one (options : List String) (m : StrengthMap) :
    maxMult options m ≤ 1 := by
  induction options with
  | nil => simp [maxMult_nil]
  | cons o rest ih =>
      rw [maxMult_cons]
      exact max_le (mult_le_one _) ih

theorem bestGo_nil (m : StrengthMap) (acc : Option String × String × ℚ) :
    bestGo m [] acc = acc := rfl

theorem bestGo_cons (m : StrengthMap) (o : String) (rest : List String)
    (acc : Option String × String × ℚ) :
    bestGo m (o :: rest) acc = bestGo m rest
      (if acc.2.2 < optMult m o then (some o, groupOptionStrength m o, optMult m o)
       else acc) := rfl

theorem bestGo_mult (m : StrengthMap) (l : List String) :
    ∀ acc : Option String × String × ℚ, 0 ≤ acc.2.2 →
      (bestGo m l acc).2.2 = max acc.2.2 (maxMult l m) := by
  induction l with
  | nil => intro acc h0; rw [bestGo_nil, maxMult_nil, max_eq_left h0]
  | cons o rest ih =>
      intro acc h0
      rw [maxMult_cons, bestGo_cons]
      by_cases hlt : acc.2.2 < optMult m o
      · rw [if_pos hlt, ih _ (mult_nonneg _)]
        show max (optMult m o) _ = _
        rw [← max_assoc, max_eq_right (le_of_lt hlt)]
      · rw [if_neg hlt, ih _ h0, ← max_assoc, max_eq_left (le_of_not_lt hlt)]

theorem bestGo_skip (m : StrengthMap) (l : List String) :
    ∀ acc : Option String × String × ℚ, maxMult l m ≤ acc.2.2 →
      bestGo m l acc = acc := by
  induction l with
  | nil => intro acc _; rfl
  | cons o rest ih =>
      intro acc h
      rw [maxMult_cons] at h
      have h1 : optMult m o ≤ acc.2.2 := le_trans (le_max_left _ _) h
      have h2 : maxMult rest m ≤ acc.2.2 := le_trans (le_max_right _ _) h
      rw [bestGo_cons, if_neg (not_lt.mpr h1)]
      exact ih acc h2

theorem bestGo_sel (m : StrengthMap) (l : List String) :
    ∀ acc : Option String × String × ℚ, 0 ≤ acc.2.2 → acc.2.2 < maxMult l m →
      ∃ o, l.find? (fun o' => decide (optMult m o' = maxMult l m)) = some o
        ∧ bestGo m l acc = (some o, groupOptionStrength m o, maxMult l m) := by
  induction l with
  | nil => intro acc h0 h; rw [maxMult_nil] at h; exact absurd h (not_lt.mpr h0)
  | cons o rest ih =>
      intro acc h0 h
      by_cases hcase : maxMult rest m ≤ optMult m o
      · -- the head attains the maximum
        have hMo : maxMult (o :: rest) m = optMult m o := by
          rw [maxMult_cons, max_eq_left hcase]
        have hlt : acc.2.2 < optMult m o := by rw [hMo] at h; exact h
        refine ⟨o, ?_, ?_⟩
        · exact List.find?_cons_of_pos _ (by simp only [decide_eq_true_eq]; exact hMo.symm)
        · rw [bestGo_cons, if_pos hlt,
            bestGo_skip m rest (some o, groupOptionStrength m o, optMult m o) hcase, hMo]
      · -- the maximum lives in the tail and is strictly above the head
        push_neg at hcase
        have hMr : maxMult (o :: rest) m = maxMult rest m := by
          rw [maxMult_cons, max_eq_right (le_of_lt hcase)]
        rw [bestGo_cons, hMr]
        have hno : ¬ ((fun o' => decide (optMult m o' = maxMult rest m)) o = true) := by
          simp only [decide_eq_true_eq]
          exact ne_of_lt hcase
        by_cases hlt : acc.2.2 < optMult m o
        · rw [if_pos hlt]
          obtain ⟨o', hfind, hgo⟩ :=
            ih (some o, groupOptionStrength m o, optMult m o) (mult_nonneg _) hcase
          exact ⟨o', (List.find?_cons_of_neg rest hno).trans hfind, hgo⟩
        · rw [if_neg hlt]
          rw [hMr] at h
          obtain ⟨o', hfind, hgo⟩ := ih acc h0 h
          exact ⟨o', (List.find?_cons_of_neg rest hno).trans hfind, hgo⟩

theorem get_best_mult (options : List String) (m : StrengthMap) :
    (get_best_skill_from_group options m).2.2 = maxMult options m := by
  unfold get_best_skill_from_group
  rw [bestGo_mult m options (none, "missing", 0) (by norm_num)]
  exact max_eq_right (maxMult_nonneg _ _)

theorem itemMult_bounds (m : StrengthMap) (i : SkillItem) {mu : ℚ}
    (h : itemMult m i = some mu) : 0 ≤ mu ∧ mu ≤ 1 := by
  cases i with
  | str s =>
      simp only [itemMult, Option.some.injEq] at h
      rw [← h]
      exact ⟨mult_nonneg _, mult_le_one _⟩
  | dict t sk opts =>
      simp only [itemMult] at h
      split at h <;> simp only [Option.some.injEq] at h <;> rw [← h]
      · rw [get_best_mult]
        exact ⟨maxMult_nonneg _ _, maxMult_le_one _ _⟩
      · exact ⟨mult_nonneg _, mult_le_one _⟩
  | other => simp [itemMult] at h

theorem scoreMustItem_fst (pps : ℚ) (m : StrengthMap) (i : SkillItem) :
    (scoreMustItem pps m i).map Prod.fst = (itemMult m i).map (fun mu => pps * mu) := by
  cases i with
  | str s => rfl
  | dict t sk opts =>
      by_cases hc : t.getD "single" = "or_group" <;>
        simp [scoreMustItem, itemMult, hc]
  | other => rfl

theorem mustSum_bounds (m : StrengthMap) (pps : ℚ) (hp : 0 ≤ pps) (l : List SkillItem) :
    0 ≤ ((l.filterMap (scoreMustItem pps m)).map Prod.fst).sum
    ∧ ((l.filterMap (scoreMustItem pps m)).map Prod.fst).sum ≤ (l.length : ℚ) * pps := by
  induction l with
  | nil => simp
  | cons i rest ih =>
      rcases ih with ⟨ih0, ih1⟩
      cases hmu : itemMult m i with
      | none =>
          have hnone : scoreMustItem pps m i = none := by
            have hthis := scoreMustItem_fst pps m i
            rw [hmu] at hthis
            simp only [Option.map_none'] at hthis
            exact Option.map_eq_none'.mp hthis
          rw [List.filterMap_cons_none hnone]
          refine ⟨ih0, le_trans ih1 ?_⟩
          have : ((rest.length : ℚ)) ≤ ((i :: rest).length : ℚ) := by
            simp
          nlinarith [mul_le_mul_of_nonneg_right this hp]
      | some mu =>
          have hfst : (scoreMustItem pps m i).map Prod.fst = some (pps * mu) := by
            rw [scoreMustItem_fst, hmu]
            rfl
          obtain ⟨pair, hpair, hval⟩ := Option.map_eq_some'.mp hfst
          obtain ⟨hmu0, hmu1⟩ := itemMult_bounds m i hmu
          rw [List.filterMap_cons_some hpair]
          have hlen : ((i :: rest).length : ℚ) = (rest.length : ℚ) + 1 := by
            simp
          constructor
          · simp only [List.map_cons, List.sum_cons, hval]
            have : 0 ≤ pps * mu := mul_nonneg hp hmu0
            linarith
          · simp only [List.map_cons, List.sum_cons, hval, hlen]
            have : pps * mu ≤ pps := by
              nlinarith
            linarith

theorem mustSum_all_one (m : StrengthMap) (pps : ℚ) (l : List SkillItem)
    (hall : ∀ i ∈ l, itemMult m i = some 1) :
    ((l.filterMap (scoreMustItem pps m)).map Prod.fst).sum = (l.length : ℚ) * pps := by
  induction l with
  | nil => simp
  | cons i rest ih =>
      have hmu : itemMult m i = some 1 := hall i (List.mem_cons_self i rest)
      have hfst : (scoreMustItem pps m i).map Prod.fst = some (pps * 1) := by
        rw [scoreMustItem_fst, hmu]
        rfl
      obtain ⟨pair, hpair, hval⟩ := Option.map_eq_some'.mp hfst
      rw [List.filterMap_cons_some hpair]
      simp only [List.map_cons, List.sum_cons, hval,
        ih (fun j hj => hall j (List.mem_cons_of_mem i hj)), List.length_cons]
      push_cast
      ring

theorem scoreNiceItem_fst (pps : ℚ) (m : StrengthMap) (i : SkillItem) :
    (scoreNiceItem pps m i).map Prod.fst
      = if isHandledShape i then some (if resolvesNonMissing m i then pps else 0)
        else none := by
  cases i with
  | str s => rfl
  | dict t sk opts =>
      by_cases hc : t.getD "single" = "or_group" <;>
        simp [scoreNiceItem, resolvesNonMissing, isHandledShape, hc]
  | other => rfl

theorem resolves_implies_handled (m : StrengthMap) (i : SkillItem)
    (h : resolvesNonMissing m i = true) : isHandledShape i = true := by
  cases i <;> simp_all [resolvesNonMissing, isHandledShape]

theorem niceSum (m : StrengthMap) (pps : ℚ) (l : List SkillItem) :
    ((l.filterMap (scoreNiceItem pps m)).map Prod.fst).sum
      = ((l.filter (resolvesNonMissing m)).length : ℚ) * pps := by
  induction l with
  | nil => simp
  | cons i rest ih =>
      by_cases hh : isHandledShape i = true
      · by_cases hr : resolvesNonMissing m i = true
        · have hfst : (scoreNiceItem pps m i).map Prod.fst = some pps := by
            rw [scoreNiceItem_fst, if_pos hh, hr, if_pos rfl]
          obtain ⟨pair, hpair, hval⟩ := Option.map_eq_some'.mp hfst
          rw [List.filterMap_cons_some hpair]
          simp only [List.map_cons, List.sum_cons, hval, ih, List.filter_cons_of_pos hr,
            List.length_cons]
          push_cast
          ring
        · have hfst : (scoreNiceItem pps m i).map Prod.fst = some 0 := by
            rw [scoreNiceItem_fst, if_pos hh, if_neg (by simpa using hr)]
          obtain ⟨pair, hpair, hval⟩ := Option.map_eq_some'.mp hfst
          rw [List.filterMap_cons_some hpair]
          simp only [List.map_cons, List.sum_cons, hval, ih,
            List.filter_cons_of_neg (by simpa using hr)]
          ring
      · have hi : i = SkillItem.other := by
          cases i <;> simp_all [isHandledShape]
        have hr : ¬ (resolvesNonMissing m i = true) := by
          intro hc
          exact hh (resolves_implies_handled m i hc)
        have hnone : scoreNiceItem pps m i = none := by
          subst hi
          rfl
        rw [List.filterMap_cons_none hnone, List.filter_cons_of_neg hr, ih]

theorem filterMap_skip_other {β : Type} (g : SkillItem → Option β)
    (hg : g SkillItem.other = none) (l : List SkillItem) :
    l.filterMap g = (l.filter isHandledShape).filterMap g := by
  induction l with
  | nil => rfl
  | cons i rest ih =>
      cases i with
      | str s =>
          rw [List.filter_cons_of_pos (by rfl), List.filterMap_cons, List.filterMap_cons, ih]
      | dict t sk opts =>
          rw [List.filter_cons_of_pos (by rfl), List.filterMap_cons, List.filterMap_cons, ih]
      | other =>
          rw [List.filter_cons_of_neg (by simp [isHandledShape]),
            List.filterMap_cons_none hg, ih]

/-! ## Helper lemmas about the identity resolver -/

theorem matchAudioLoop_nil (w : List String) : matchAudioLoop w [] = none := rfl

theorem matchAudioLoop_cons (w : List String) (b : String) (rest : List String) :
    matchAudioLoop w (b :: rest)
      = (if hasWordOverlap w (wordsOf b) then some b
         else if hasSubstrPair w (wordsOf b) then some b
         else matchAudioLoop w rest) := rfl

theorem matchAudioLoop_eq_find (w : List String) (l : List String) :
    matchAudioLoop w l
      = l.find? (fun b => hasWordOverlap w (wordsOf b) || hasSubstrPair w (wordsOf b)) := by
  induction l with
  | nil => rfl
  | cons b rest ih =>
      rw [matchAudioLoop_cons]
      by_cases h1 : hasWordOverlap w (wordsOf b) = true
      · rw [if_pos h1]
        exact (List.find?_cons_of_pos _ (by simp [h1])).symm
      · rw [if_neg h1]
        by_cases h2 : hasSubstrPair w (wordsOf b) = true
        · rw [if_pos h2]
          exact (List.find?_cons_of_pos _ (by simp [h2])).symm
        · rw [if_neg h2, ih]
          exact (List.find?_cons_of_neg _ (by simp [h1, h2])).symm

/-! ## Claim theorems -/

theorem calculate_final_score_intArgs (a b c : ℤ) (f : ℚ) :
    calculate_final_score (a : ℚ) (b : ℚ) (c : ℚ) f
      = ((min 100 (max 0 (40 + a + b + c)) : ℤ) : ℚ) := by
  unfold calculate_final_score
  rw [show (min 100 (max 0 (40 + (a : ℚ) + (b : ℚ) + (c : ℚ))))
      = ((min 100 (max 0 (40 + a + b + c)) : ℤ) : ℚ) by push_cast; ring_nf]
  exact pyRound1_intCast _

/-- C2: for all rational inputs, whatever their magnitudes,
`calculate_final_score` returns `round(clamp(40 + must + nice +
suitability, 0, 100), 1)`, and the result always lies in `[0, 100]`. -/
theorem claim_C2 (mh nh suit fmt : ℚ) :
    calculate_final_score mh nh suit fmt
      = pyRound1 (min 100 (max 0 (40 + mh + nh + suit)))
    ∧ 0 ≤ calculate_final_score mh nh suit fmt
    ∧ calculate_final_score mh nh suit fmt ≤ 100 := by
  refine ⟨rfl, ?_, ?_⟩
  · have h0 : ((0 : ℤ) : ℚ) ≤ min 100 (max 0 (40 + mh + nh + suit)) := by
      push_cast
      exact le_min (by norm_num) (le_max_left _ _)
    have h := le_pyRound1 h0
    unfold calculate_final_score
    simpa using h
  · have h1 : min 100 (max 0 (40 + mh + nh + suit)) ≤ ((100 : ℤ) : ℚ) := by
      push_cast
      exact min_le_left _ _
    have h := pyRound1_le h1
    unfold calculate_final_score
    simpa using h

/-- C8: two runs of `calculate_final_score`, and two runs of
`score_candidate`, that differ only in the formatting score produce the
same final score — formatting is reported in the breakdown but never
enters the total. -/
theorem claim_C8 :
    (∀ mh nh suit f1 f2 : ℚ,
      calculate_final_score mh nh suit f1 = calculate_final_score mh nh suit f2)
    ∧ ∀ (ra : ResumeAnalysis) (jd : JDAnalysis) (f : Option ℚ),
        (score_candidate { ra with formatting_score := f } jd).final_score
          = (score_candidate ra jd).final_score :=
  ⟨fun _ _ _ _ _ => rfl, fun _ _ _ => rfl⟩

/-- C10: for every resume and JD analysis the final score returned by
`score_candidate` is a whole number: the subtotals are integer-rounded
before composition, suitability is an integer, and the base is 40. -/
theorem claim_C10 (ra : ResumeAnalysis) (jd : JDAnalysis) :
    ∃ n : ℤ, (score_candidate ra jd).final_score = (n : ℚ) :=
  ⟨_, calculate_final_score_intArgs
      (score_skills jd.must_have_skills jd.nice_to_have_skills ra.skill_strength).1
      (score_skills jd.must_have_skills jd.nice_to_have_skills ra.skill_strength).2.1
      (calculate_suitability_score (ra.engineering_depth_score.getD 8))
      (ra.formatting_score.getD 2)⟩

/-- C6 (amended): exact key equality is tried first; otherwise the
buckets are scanned once in insertion order and the audio attaches to
the first bucket matching by word overlap or by a substring pair — the
substring test for a bucket runs before the next bucket is considered,
not in a separate later phase. -/
theorem claim_C6 (audio_name : String) (buckets : List String) :
    matchAudio audio_name buckets = matchAudioFirst audio_name buckets := by
  unfold matchAudio matchAudioFirst
  rw [matchAudioLoop_eq_find]

/-- C6 counterexample: with buckets `["abc x", "john"]` (insertion
order) and audio key `"john abcdef"`, the bucket `"john"` matches by
word overlap and `"abc x"` only by substring, yet the code attaches the
audio to the earlier-inserted `"abc x"`, while the claimed phase order
would pick `"john"`. -/
theorem claim_C6_counterexample :
    matchAudio "john abcdef" ["abc x", "john"] = some "abc x"
    ∧ matchAudioSpecPhases "john abcdef" ["abc x", "john"] = some "john"
    ∧ hasWordOverlap (wordsOf "john abcdef") (wordsOf "abc x") = false
    ∧ hasWordOverlap (wordsOf "john abcdef") (wordsOf "john") = true
    ∧ (some "abc x" : Option String) ≠ some "john" := by
  refine ⟨by decide, by decide, by decide, by decide, by decide⟩

/-- C7 (amended): `normalize_name` drops path and extension and applies
the source's seven removal passes — `_resume`, `_cv`, `_interview`,
`_audio`, `_recording` and then the bare substrings `resume`, `cv`,
each with adjacent separator runs — before collapsing `_`/`-` runs to
spaces, lowercasing and trimming.  So the spec's two examples hold, but
`resume`/`cv` are removed even inside words, and `interview`, `audio`,
`recording` are only removed when preceded by a literal underscore. -/
theorem claim_C7 :
    normalize_name "john_doe_resume.pdf" = "john doe"
    ∧ normalize_name "johndoe_interview.mp3" = "johndoe"
    ∧ normalize_name "presume.pdf" = "p"
    ∧ normalize_name "john interview.mp3" = "john interview" := by
  refine ⟨by decide, by decide, by decide, by decide⟩

/-- C7 counterexample: in `"presume.pdf"` the token `resume` is not
separator-bounded, so the claimed rule keeps `"presume"`; the code
removes it anyway and returns `"p"`. -/
theorem claim_C7_counterexample :
    normalize_name "presume.pdf" = "p"
    ∧ normalize_name_specRule "presume.pdf" = "presume"
    ∧ ("p" : String) ≠ "presume" := by
  refine ⟨by decide, by decide, by decide⟩

theorem c1_example_eval :
    (score_candidate c1Resume c1JD).final_score = 50
    ∧ (score_candidate c1Resume c1JD).must_have_score = 0
    ∧ (score_candidate c1Resume c1JD).suitability_score = 10 := by
  have hm : mustTotalQ [SkillItem.dict none (some "Python") none] [("python", "weak")] = 0 := by
    simp [mustTotalQ, mustResults, scoreMustItem, dictGet, strLower,
      SKILL_STRENGTH_MULTIPLIER, List.find?]
  have hn : niceTotalQ [] [("python", "weak")] = 0 := by
    simp [niceTotalQ, niceResults]
  have hs : calculate_suitability_score 6 = 10 := by
    unfold calculate_suitability_score
    rw [show (6 : ℚ) * (25 / 15) = ((10 : ℤ) : ℚ) by norm_num, pyRound_intCast]
    decide
  have hr0 : pyRound (0 : ℚ) = 0 := pyRound_intCast 0
  refine ⟨?_, ?_, ?_⟩
  · show calculate_final_score
      ((pyRound (mustTotalQ [SkillItem.dict none (some "Python") none] [("python", "weak")]) : ℤ) : ℚ)
      ((pyRound (niceTotalQ [] [("python", "weak")]) : ℤ) : ℚ)
      ((calculate_suitability_score ((6 : ℚ)) : ℤ) : ℚ) 2 = 50
    rw [hm, hn, hr0, hs]
    unfold calculate_final_score
    rw [show min 100 (max 0 (40 + ((0 : ℤ) : ℚ) + ((0 : ℤ) : ℚ) + ((10 : ℤ) : ℚ)))
        = ((50 : ℤ) : ℚ) by push_cast; norm_num, pyRound1_intCast]
    norm_num
  · show pyRound (mustTotalQ [SkillItem.dict none (some "Python") none] [("python", "weak")]) = 0
    rw [hm, hr0]
  · show calculate_suitability_score ((6 : ℚ)) = 10
    exact hs

/-- C1 (amended): single-requirement resolution (a bare string, or a
dict without type `or_group`) looks the skill name up CASE-SENSITIVELY
in the strength map — the case-insensitive fallback exists only for
OR-group options — and a key absent under exact comparison resolves to
`missing` with zero points.  Consequently the spec's end-to-end example
(`{skill:"Python"}` against `{"python":"weak"}`, depth 6, formatting 2)
yields must_have_total = 0, suitability = 10 and final score 50.0,
not 59.0. -/
theorem claim_C1 (m : StrengthMap) (name : String)
    (h : m.find? (fun p => p.1 == name) = none) :
    strLower (dictGet m name "missing") = "missing"
    ∧ (∀ pps : ℚ, (scoreMustItem pps m (SkillItem.str name)).map Prod.fst = some 0)
    ∧ (∀ (pps : ℚ) (t : Option String) (opts : Option (List String)),
        t.getD "single" ≠ "or_group" →
        (scoreMustItem pps m (SkillItem.dict t (some name) opts)).map Prod.fst = some 0)
    ∧ (score_candidate c1Resume c1JD).final_score = 50 := by
  have h1 : dictGet m name "missing" = "missing" := by
    unfold dictGet
    rw [h]
  have h2 : strLower "missing" = "missing" := by decide
  refine ⟨by rw [h1, h2], ?_, ?_, c1_example_eval.1⟩
  · intro pps
    simp [scoreMustItem, h1, h2, SKILL_STRENGTH_MULTIPLIER]
  · intro pps t opts ht
    simp [scoreMustItem, ht, h1, h2, SKILL_STRENGTH_MULTIPLIER]

/-- Witness for C1 at the spec's own example inputs: the key
`"Python"` has no exact entry in `{"python": "weak"}`, so it resolves
to `missing` and contributes zero points. -/
theorem claim_C1_witness :
    strLower (dictGet [("python", "weak")] "Python" "missing") = "missing"
    ∧ (scoreMustItem 30 [("python", "weak")] (SkillItem.str "Python")).map Prod.fst
      = some 0 := by
  have h := claim_C1 [("python", "weak")] "Python" (by decide)
  exact ⟨h.1, h.2.1 30⟩

/-- C1 counterexample: on the spec's end-to-end example the code returns
final score 50.0 with must_have_total 0, not the claimed 59.0 with
must_have_total 9. -/
theorem claim_C1_counterexample :
    (score_candidate c1Resume c1JD).final_score = 50
    ∧ (score_candidate c1Resume c1JD).must_have_score = 0
    ∧ (50 : ℚ) ≠ 59
    ∧ (0 : ℤ) ≠ 9 := by
  exact ⟨c1_example_eval.1, c1_example_eval.2.1, by norm_num, by norm_num⟩

/-- C3 (amended): `get_best_skill_from_group` returns the maximal
multiplier over the options, and resolves to the first option (in
declaration order) achieving it — ties keep the earliest option —
PROVIDED the maximal multiplier is positive; when every option is
missing (all multipliers 0) it resolves to no option (`best_skill =
None`), not to the first option. -/
theorem claim_C3 (options : List String) (m : StrengthMap) :
    (get_best_skill_from_group options m).2.2 = maxMult options m
    ∧ (0 < maxMult options m →
        (get_best_skill_from_group options m).1 = firstAtMax options m)
    ∧ (maxMult options m = 0 → (get_best_skill_from_group options m).1 = none) := by
  refine ⟨get_best_mult options m, ?_, ?_⟩
  · intro hpos
    obtain ⟨o, hfind, hgo⟩ :=
      bestGo_sel m options (none, "missing", 0) (le_refl 0) hpos
    unfold get_best_skill_from_group
    rw [hgo]
    unfold firstAtMax
    rw [hfind]
  · intro h0
    unfold get_best_skill_from_group
    rw [bestGo_skip m options (none, "missing", 0) h0.le]

/-- C3 counterexample: an OR group whose options are all missing
resolves to NO option: with `options = ["Java"]` and an empty strength
map, `best_skill` is `None`, not the first (unique) option `"Java"`. -/
theorem claim_C3_counterexample :
    (get_best_skill_from_group ["Java"] []).1 = none
    ∧ (none : Option String) ≠ some "Java" := by
  constructor
  · have h1 : optMult [] "Java" = 0 := rfl
    unfold get_best_skill_from_group
    rw [bestGo_cons, h1, if_neg (lt_irrefl 0), bestGo_nil]
  · simp

/-- Witness for C3 at the spec's two examples: the strictly greatest
multiplier wins over map order (`MySQL`), and on an exact tie the
earliest declared option wins (`A`). -/
theorem claim_C3_witness :
    (get_best_skill_from_group ["MySQL", "MongoDB"]
        [("mongodb", "moderate"), ("mysql", "strong")]).1 = some "MySQL"
    ∧ (get_best_skill_from_group ["A", "B"] [("a", "strong"), ("b", "strong")]).1
      = some "A" := by
  constructor
  · have e1 : optMult [("mongodb", "moderate"), ("mysql", "strong")] "MySQL" = 1 := by
      have hg : groupOptionStrength [("mongodb", "moderate"), ("mysql", "strong")] "MySQL"
          = "strong" := by decide
      unfold optMult
      rw [hg]
      simp [SKILL_STRENGTH_MULTIPLIER]
    have e2 : optMult [("mongodb", "moderate"), ("mysql", "strong")] "MongoDB" = 7/10 := by
      have hg : groupOptionStrength [("mongodb", "moderate"), ("mysql", "strong")] "MongoDB"
          = "moderate" := by decide
      unfold optMult
      rw [hg]
      simp [SKILL_STRENGTH_MULTIPLIER]
    have hmax : maxMult ["MySQL", "MongoDB"] [("mongodb", "moderate"), ("mysql", "strong")]
        = 1 := by
      rw [maxMult_cons, maxMult_cons, maxMult_nil, e1, e2,
        max_eq_left (by norm_num : (0:ℚ) ≤ 7/10), max_eq_left (by norm_num : (7:ℚ)/10 ≤ 1)]
    have h := (claim_C3 ["MySQL", "MongoDB"] [("mongodb", "moderate"), ("mysql", "strong")]).2.1
      (by rw [hmax]; norm_num)
    rw [h]
    unfold firstAtMax
    exact List.find?_cons_of_pos _ (by simp only [decide_eq_true_eq, e1, hmax])
  · have e1 : optMult [("a", "strong"), ("b", "strong")] "A" = 1 := by
      have hg : groupOptionStrength [("a", "strong"), ("b", "strong")] "A" = "strong" := by
        decide
      unfold optMult
      rw [hg]
      simp [SKILL_STRENGTH_MULTIPLIER]
    have e2 : optMult [("a", "strong"), ("b", "strong")] "B" = 1 := by
      have hg : groupOptionStrength [("a", "strong"), ("b", "strong")] "B" = "strong" := by
        decide
      unfold optMult
      rw [hg]
      simp [SKILL_STRENGTH_MULTIPLIER]
    have hmax : maxMult ["A", "B"] [("a", "strong"), ("b", "strong")] = 1 := by
      rw [maxMult_cons, maxMult_cons, maxMult_nil, e1, e2,
        max_eq_left (by norm_num : (0:ℚ) ≤ 1), max_self]
    have h := (claim_C3 ["A", "B"] [("a", "strong"), ("b", "strong")]).2.1
      (by rw [hmax]; norm_num)
    rw [h]
    unfold firstAtMax
    exact List.find?_cons_of_pos _ (by simp only [decide_eq_true_eq, e1, hmax])

/-- C4 (amended): with `N` must-have requirements each share is `30/N`
(reported as each record's `max_points`), the returned must-have total
is at most 30, and it equals 30 whenever every requirement resolves to
strong — but NOT only then: integer rounding of the accumulated float
can reach 30 with a non-strong resolution once the unrounded sum is at
least 29.5 (e.g. 19 requirements, 18 strong and one moderate). -/
theorem claim_C4 (must nice : List SkillItem) (m : StrengthMap) :
    (score_skills must nice m).1 ≤ 30
    ∧ (must ≠ [] → (∀ i ∈ must, itemMult m i = some 1) →
        (score_skills must nice m).1 = 30)
    ∧ (∀ r ∈ (mustResults must m).map Prod.snd,
        r.max_points = pyRound1 (30 / (must.length : ℚ))) := by
  have hp : (0 : ℚ) ≤ 30 / (must.length : ℚ) := by positivity
  refine ⟨?_, ?_, ?_⟩
  · show pyRound (mustTotalQ must m) ≤ 30
    have hb := (mustSum_bounds m (30 / (must.length : ℚ)) hp must).2
    have hle : (must.length : ℚ) * (30 / (must.length : ℚ)) ≤ 30 := by
      rcases Nat.eq_zero_or_pos must.length with h0 | hpos
      · rw [h0]
        norm_num
      · have hne : (must.length : ℚ) ≠ 0 := by
          exact_mod_cast Nat.pos_iff_ne_zero.mp hpos
        rw [mul_comm, div_mul_cancel₀ _ hne]
    have hb' : mustTotalQ must m ≤ (must.length : ℚ) * (30 / (must.length : ℚ)) := hb
    exact pyRound_le (by push_cast; linarith)
  · intro hne hall
    show pyRound (mustTotalQ must m) = 30
    have hlen : (must.length : ℚ) ≠ 0 := by
      have : must.length ≠ 0 := fun hc => hne (List.length_eq_zero.mp hc)
      exact_mod_cast this
    have hsum := mustSum_all_one m (30 / (must.length : ℚ)) must hall
    have h30 : mustTotalQ must m = ((30 : ℤ) : ℚ) := by
      unfold mustTotalQ mustResults
      rw [hsum, mul_comm, div_mul_cancel₀ _ hlen]
      norm_num
    rw [h30, pyRound_intCast]
  · intro r hr
    simp only [mustResults, List.mem_map, List.mem_filterMap] at hr
    obtain ⟨⟨q, rec⟩, ⟨i, hi, hsc⟩, hrec⟩ := hr
    subst hrec
    cases i with
    | str s =>
        simp only [scoreMustItem, Option.some.injEq] at hsc
        rw [← hsc]
    | dict t sk opts =>
        by_cases hc : t.getD "single" = "or_group" <;>
          simp only [scoreMustItem, hc, if_true, if_false, Option.some.injEq,
            reduceIte] at hsc <;>
          rw [← hsc]
    | other => simp [scoreMustItem] at hsc

/-- Witness for C4: one requirement resolving strong gives exactly the
full 30 points, and the bound holds. -/
theorem claim_C4_witness :
    (score_skills [SkillItem.str "x"] [] [("x", "strong")]).1 = 30
    ∧ (score_skills [SkillItem.str "x"] [] [("x", "strong")]).1 ≤ 30 := by
  have h := claim_C4 [SkillItem.str "x"] [] [("x", "strong")]
  refine ⟨h.2.1 (by decide) ?_, h.1⟩
  intro i hi
  have hix : i = SkillItem.str "x" := by simpa using hi
  subst hix
  simp [itemMult, dictGet, strLower, SKILL_STRENGTH_MULTIPLIER, List.find?]

/-- C4 counterexample: 19 must-have requirements, 18 strong and one
(`"b"`) moderate, give an unrounded sum of 561/19 ≈ 29.53, which rounds
to a returned total of 30 although `"b"` does not resolve to strong —
refuting the only-if direction. -/
theorem claim_C4_counterexample :
    (score_skills c4Must [] c4Map).1 = 30
    ∧ SkillItem.str "b" ∈ c4Must
    ∧ itemMult c4Map (SkillItem.str "b") = some (7/10)
    ∧ ((7 : ℚ)/10) ≠ 1 := by
  refine ⟨?_, by decide, ?_, by norm_num⟩
  · show pyRound (mustTotalQ c4Must c4Map) = 30
    have hsum : mustTotalQ c4Must c4Map = 561/19 := by
      simp [mustTotalQ, mustResults, scoreMustItem, dictGet, strLower,
        SKILL_STRENGTH_MULTIPLIER, List.find?, List.replicate, c4Must, c4Map]
      norm_num
    rw [hsum, show ((30 : ℤ) = 29 + 1) by norm_num]
    apply pyRound_eq_high <;> norm_num
  · simp [itemMult, c4Map, dictGet, strLower, SKILL_STRENGTH_MULTIPLIER, List.find?]

/-- C5: for `M` nice-to-have requirements of which `k` resolve to a
non-missing strength, each requirement is scored binarily (full share
`5/M` when non-missing, else 0) and the returned nice-to-have total is
`round(5k/M)`. -/
theorem claim_C5 (must nice : List SkillItem) (m : StrengthMap) (h : nice ≠ []) :
    (score_skills must nice m).2.1
      = pyRound (5 * ((nice.filter (resolvesNonMissing m)).length : ℚ) / (nice.length : ℚ))
    ∧ ∀ i ∈ nice, ((scoreNiceItem (5 / (nice.length : ℚ)) m i).map Prod.fst).getD 0
        = if resolvesNonMissing m i then 5 / (nice.length : ℚ) else 0 := by
  constructor
  · show pyRound (niceTotalQ nice m) = _
    have hsum := niceSum m (5 / (nice.length : ℚ)) nice
    have hq : niceTotalQ nice m
        = ((nice.filter (resolvesNonMissing m)).length : ℚ) * (5 / (nice.length : ℚ)) := hsum
    rw [hq]
    congr 1
    ring
  · intro i hi
    rw [scoreNiceItem_fst]
    by_cases hh : isHandledShape i = true
    · rw [if_pos hh]
      rfl
    · rw [if_neg hh]
      have hr : ¬ (resolvesNonMissing m i = true) := fun hc =>
        hh (resolves_implies_handled m i hc)
      rw [if_neg hr]
      rfl

/-- Witness for C5: two nice-to-have requirements of which one resolves
non-missing give `round(5·1/2) = round(2.5) = 2` (banker's rounding). -/
theorem claim_C5_witness :
    (score_skills [] [SkillItem.str "a", SkillItem.str "b"] [("a", "strong")]).2.1 = 2 := by
  have h := (claim_C5 [] [SkillItem.str "a", SkillItem.str "b"] [("a", "strong")]
    (by decide)).1
  rw [h]
  rw [show (List.filter (resolvesNonMissing [("a", "strong")])
      [SkillItem.str "a", SkillItem.str "b"]).length = 1 from by decide]
  have htie : 5 * ((1 : ℕ) : ℚ) / ((List.length [SkillItem.str "a", SkillItem.str "b"] : ℕ) : ℚ)
      = ((2 : ℤ) : ℚ) + 1/2 := by
    push_cast
    norm_num
  rw [pyRound_tie htie]
  decide

/-- C9: requirement entries that are neither strings nor dicts are
skipped — they produce no breakdown record and no points, while the
remaining entries of the batch are scored unchanged (the embedding is a
total function, so no exception is possible) — and a category with zero
requirements is omitted from the breakdown and contributes 0 to the
total, with no division evaluated. -/
theorem claim_C9 (must nice : List SkillItem) (m : StrengthMap) :
    mustResults must m
      = (must.filter isHandledShape).filterMap (scoreMustItem (30 / (must.length : ℚ)) m)
    ∧ niceResults nice m
      = (nice.filter isHandledShape).filterMap (scoreNiceItem (5 / (nice.length : ℚ)) m)
    ∧ (score_skills [] nice m).1 = 0
    ∧ ((score_skills [] nice m).2.2.filter Category.isMust) = []
    ∧ (score_skills must [] m).2.1 = 0
    ∧ ((score_skills must [] m).2.2.filter Category.isNice) = [] := by
  refine ⟨filterMap_skip_other _ rfl must, filterMap_skip_other _ rfl nice, ?_, ?_, ?_, ?_⟩
  · show pyRound (mustTotalQ [] m) = 0
    have h0 : mustTotalQ [] m = ((0 : ℤ) : ℚ) := by
      unfold mustTotalQ mustResults
      norm_num
    rw [h0, pyRound_intCast]
  · simp only [score_skills, List.isEmpty_nil, if_true, List.nil_append, reduceIte]
    by_cases he : nice.isEmpty <;> simp [he, Category.isMust]
  · show pyRound (niceTotalQ [] m) = 0
    have h0 : niceTotalQ [] m = ((0 : ℤ) : ℚ) := by
      unfold niceTotalQ niceResults
      norm_num
    rw [h0, pyRound_intCast]
  · simp only [score_skills, List.isEmpty_nil, if_true, reduceIte]
    by_cases he : must.isEmpty <;> simp [he, Category.isNice]
